import Mathlib

/-!
Shallow embedding of the WOL utility (`app.py`): MAC codec, magic-packet
builder and sender, device registry operations, liveness prober and the
concurrent probe fan-out.  Python strings are modelled as `List Char`,
Python `bytes` as `List Nat`, JSON-dict device records as a structure with
`Option` fields (a missing key is `none`), and fallible operations return
`Except`/`Option`.  Network and file-system effects are abstracted as
explicit parameters.
-/

namespace Wol

/-- The character class of the regex `[^0-9A-Fa-f]` in `normalize_mac`:
the 22 hexadecimal-digit characters. -/
def hexChars : List Char :=
  ['0', '1', '2', '3', '4', '5', '6', '7', '8', '9',
   'A', 'B', 'C', 'D', 'E', 'F',
   'a', 'b', 'c', 'd', 'e', 'f']

/-- Whether a character is kept by `re.sub(r'[^0-9A-Fa-f]', '', mac)`. -/
def isHexChar (c : Char) : Bool := decide (c ∈ hexChars)

/-- Groups a list into consecutive pairs, mirroring the slices
`cleaned[i:i+2] for i in range(0, 12, 2)` taken on the 12-character
cleaned string in `normalize_mac`. -/
def chunk2 : List Char → List (List Char)
  | a :: b :: rest => [a, b] :: chunk2 rest
  | _ => []

/-- `normalize_mac` from `app.py`: strip every non-hex character; if the
remainder does not have exactly 12 characters return the empty string,
else uppercase each 2-character group and join the groups with `:`. -/
def normalize_mac (mac : List Char) : List Char :=
  let cleaned := mac.filter isHexChar
  if cleaned.length = 12 then
    List.intercalate [':'] ((chunk2 cleaned).map (fun p => p.map Char.toUpper))
  else []

/-- `validate_mac` from `app.py`: the normalized form has length 17. -/
def validate_mac (mac : List Char) : Bool :=
  (normalize_mac mac).length = 17

/-- Canonical textual MAC form as the spec words it: six two-character
uppercase hex groups joined with `:`.  Stated directly on the twelve
stripped hex digits; compared against `normalize_mac` in claim C2. -/
def spec_canonical : List Char → List Char
  | [c1, c2, c3, c4, c5, c6, c7, c8, c9, c10, c11, c12] =>
      [c1.toUpper, c2.toUpper, ':', c3.toUpper, c4.toUpper, ':',
       c5.toUpper, c6.toUpper, ':', c7.toUpper, c8.toUpper, ':',
       c9.toUpper, c10.toUpper, ':', c11.toUpper, c12.toUpper]
  | _ => []

/-- Python `str.split(sep)` for a one-character separator: split at every
occurrence of `sep`, keeping empty pieces.  Used for `norm.split(':')` in
`mac_to_bytes`. -/
def pySplit (sep : Char) : List Char → List (List Char)
  | [] => [[]]
  | c :: rest =>
    if c = sep then [] :: pySplit sep rest
    else
      match pySplit sep rest with
      | g :: gs => (c :: g) :: gs
      | [] => [[c]]

/-- Value of one hexadecimal digit, as `int(_, 16)` assigns it. -/
def hexDigitVal (c : Char) : Nat :=
  if '0' ≤ c ∧ c ≤ '9' then c.toNat - '0'.toNat
  else if 'a' ≤ c ∧ c ≤ 'f' then c.toNat - 'a'.toNat + 10
  else if 'A' ≤ c ∧ c ≤ 'F' then c.toNat - 'A'.toNat + 10
  else 0

/-- Python `int(g, 16)` on a string of hex digits (the only inputs it
receives in `mac_to_bytes`, whose groups come from a canonical form). -/
def hexGroupVal (g : List Char) : Nat :=
  g.foldl (fun a c => 16 * a + hexDigitVal c) 0

/-- `mac_to_bytes` from `app.py`: normalize, raise (`none`) when the
normalized form is empty, else parse each colon-separated group as a hex
byte. -/
def mac_to_bytes (mac : List Char) : Option (List Nat) :=
  let norm := normalize_mac mac
  if norm = [] then none
  else some ((pySplit ':' norm).map hexGroupVal)

/-- The magic-packet expression of `send_wol`:
`b'\xff' * 6 + mac_bytes * 16`. -/
def magic_packet (macBytes : List Nat) : List Nat :=
  List.replicate 6 255 ++ (List.replicate 16 macBytes).flatten

/-- The one datagram `send_wol` hands to the UDP socket: payload and the
`(ip, port)` destination of `sendto`. -/
structure SentPacket where
  payload : List Nat
  ip : List Char
  port : Nat
deriving DecidableEq, Repr

/-- `send_wol` from `app.py`, with the socket abstracted away: builds the
magic packet from `mac_to_bytes` (propagating its `ValueError` as `none`)
and sends it to `(ip, port)`. -/
def send_wol (mac ip : List Char) (port : Nat) : Option SentPacket :=
  (mac_to_bytes mac).map (fun bs => ⟨magic_packet bs, ip, port⟩)

/-- A device record as stored in `devices.json`: a JSON object whose keys
are read with `dict.get`, so every field is optional (`none` models a
missing key). -/
structure Device where
  mac : Option (List Char)
  ip : Option (List Char)
  remark : Option (List Char)
  broadcast_ip : Option (List Char)
deriving DecidableEq, Repr

instance : Inhabited Device := ⟨⟨none, none, none, none⟩⟩

/-- Python `value or None` on an optional string: a missing key or an
empty (falsy) string collapses to `None`. -/
def orNone (o : Option (List Char)) : Option (List Char) :=
  match o with
  | some s => if s = [] then none else some s
  | none => none

/-- Truthiness of an optional string (`if ip:`). -/
def truthy (o : Option (List Char)) : Bool :=
  match o with
  | some s => s ≠ []
  | none => false

/-- The JSON body of a `POST /api/devices` request. -/
structure AddReq where
  mac : List Char
  ip : Option (List Char)
  remark : Option (List Char)
  broadcast_ip : Option (List Char)

inductive AddError where
  | validation
  | duplicate
deriving DecidableEq, Repr

/-- `add_device` from `app.py`, with persistence modelled by returning the
saved list: validate the MAC, reject a duplicate of the normalized MAC,
else append a record with the canonical MAC and only the truthy optional
fields, save, and return the stored record. -/
def add_device (req : AddReq) (devices : List Device) :
    Except AddError (List Device × Device) :=
  let ip := orNone req.ip
  let remark := orNone req.remark
  let broadcast_ip := orNone req.broadcast_ip
  if validate_mac req.mac then
    let macNorm := normalize_mac req.mac
    if devices.any (fun d => d.mac = some macNorm) then .error .duplicate
    else
      let device : Device := ⟨some macNorm, ip, remark, broadcast_ip⟩
      .ok (devices ++ [device], device)
  else .error .validation

inductive DeleteError where
  | notFound
deriving DecidableEq, Repr

/-- `delete_device` from `app.py`: keep the records whose `mac` differs
from the normalized input; a not-found error when nothing was dropped,
else the kept records are saved. -/
def delete_device (mac : List Char) (devices : List Device) :
    Except DeleteError (List Device) :=
  let macNorm := normalize_mac mac
  let newDevices := devices.filter (fun d => d.mac ≠ some macNorm)
  if newDevices.length = devices.length then .error .notFound
  else .ok newDevices

/-- Python `str.strip()` restricted to the ASCII whitespace that
`Char.isWhitespace` models. -/
def pyStrip (s : List Char) : List Char :=
  ((s.dropWhile Char.isWhitespace).reverse.dropWhile Char.isWhitespace).reverse

/-- Lowercasing of `str.lower()`, character by character. -/
def toLowerAll (s : List Char) : List Char := s.map Char.toLower

/-- `str(d.get(k, ''))`: a missing field is coerced to the empty string. -/
def fieldText (o : Option (List Char)) : List Char := o.getD []

/-- The `match` predicate inside `search_devices`: the processed query
occurs in the lowercased text of some of the `mac`, `ip`, `remark`
fields. -/
def searchMatch (q : List Char) (d : Device) : Bool :=
  decide (q <:+: toLowerAll (fieldText d.mac)) ||
  decide (q <:+: toLowerAll (fieldText d.ip)) ||
  decide (q <:+: toLowerAll (fieldText d.remark))

/-- `search_devices` from `app.py`: strip and lowercase the query; an
empty processed query returns all devices, else filter by
`searchMatch`. -/
def search_devices (q : List Char) (devices : List Device) : List Device :=
  let qs := toLowerAll (pyStrip q)
  if qs = [] then devices
  else devices.filter (searchMatch qs)

/-- The filter the claim wording describes: records containing the raw
query (case-insensitively) in MAC, address or remark, with no stripping
of the query. -/
def claimedSearch (q : List Char) (devices : List Device) : List Device :=
  if q = [] then devices
  else devices.filter (searchMatch (toLowerAll q))

inductive WakeError where
  | invalidMac
  | sendFailure
deriving DecidableEq, Repr

/-- The global broadcast address `'255.255.255.255'`. -/
def globalBroadcast : List Char :=
  ['2', '5', '5', '.', '2', '5', '5', '.', '2', '5', '5', '.', '2', '5', '5']

/-- `int(data.get('port') or 9)`: a missing or falsy (zero) port falls
back to 9. -/
def effectivePort (port : Option Nat) : Nat :=
  match port with
  | some p => if p = 0 then 9 else p
  | none => 9

/-- `wake_device` from `app.py`: validate the MAC, look up the first
record with the canonical MAC, choose its truthy `broadcast_ip` or the
global broadcast, then `send_wol`; an exception inside `send_wol` becomes
a 500 error. -/
def wake_device (mac : List Char) (port : Option Nat) (devices : List Device) :
    Except WakeError SentPacket :=
  if validate_mac mac then
    let dev := devices.find? (fun d => d.mac = some (normalize_mac mac))
    let broadcast_ip :=
      match dev with
      | some d => match d.broadcast_ip with
        | some b => if b = [] then globalBroadcast else b
        | none => globalBroadcast
      | none => globalBroadcast
    match send_wol mac broadcast_ip (effectivePort port) with
    | some p => .ok p
    | none => .error .sendFailure
  else .error .invalidMac

/-- Outcome of the guarded body of `check_port` for one connection
attempt: either some statement in the `try` block raises, or
`connect_ex` returns an error code after `elapsedMs` whole
milliseconds. -/
inductive ConnOutcome where
  | exn
  | ret (code : Int) (elapsedMs : Nat)

/-- The network, abstracted: what one connection attempt to
`(ip, port)` under `timeout` does. -/
def NetEnv := List Char → Nat → Rat → ConnOutcome

/-- `{'online': ..., 'latency': ...}` as returned by `check_port`. -/
structure ProbeResult where
  online : Bool
  latency : Option Nat
deriving DecidableEq, Repr

/-- `check_port` from `app.py`: an empty address short-circuits offline;
otherwise a raised exception or a non-zero `connect_ex` code is offline,
and code 0 is online with the elapsed whole milliseconds. -/
def check_port (env : NetEnv) (ip : List Char) (port : Nat) (timeout : Rat) :
    ProbeResult :=
  if ip = [] then ⟨false, none⟩
  else
    match env ip port timeout with
    | .exn => ⟨false, none⟩
    | .ret code ms => if code = 0 then ⟨true, some ms⟩ else ⟨false, none⟩

/-- One entry of the `/api/check_all` response. -/
structure CheckResult where
  mac : Option (List Char)
  online : Bool
  latency : Option Nat
deriving DecidableEq, Repr

instance : Inhabited CheckResult := ⟨⟨none, false, none⟩⟩

/-- `check_device_worker` from `app.py`: a device with a truthy `ip` is
probed on port 3389 with a 1-second timeout, any other device is
reported offline immediately. -/
def check_device_worker (env : NetEnv) (d : Device) : CheckResult :=
  match d.ip with
  | some ip =>
    if ip = [] then ⟨d.mac, false, none⟩
    else
      let status := check_port env ip 3389 1
      ⟨d.mac, status.online, status.latency⟩
  | none => ⟨d.mac, false, none⟩

/-- The result `check_all_devices` records for one device: the except
branch around `future.result()` converts a worker that raised (`exc`)
into an offline entry for that device's MAC. -/
def device_result (env : NetEnv) (exc : Device → Bool) (d : Device) :
    CheckResult :=
  if exc d then ⟨d.mac, false, none⟩ else check_device_worker env d

/-- `check_all_devices` from `app.py`: one worker per device, every
future awaited; the thread pool and the `as_completed` collection order
are abstracted, keeping the input order. -/
def check_all_devices (env : NetEnv) (exc : Device → Bool)
    (devices : List Device) : List CheckResult :=
  devices.map (device_result env exc)

/-- The text `json.dump([], f, ensure_ascii=False, indent=2)` writes when
`ensure_data_file` creates the missing store. -/
def emptyJson : List Char := ['[', ']']

/-- `ensure_data_file` from `app.py`, on a store modelled as
`Option` file contents: a missing file is created holding the empty
collection. -/
def ensure_data_file (store : Option (List Char)) : List Char :=
  match store with
  | some s => s
  | none => emptyJson

/-- `load_devices` from `app.py`, with `json.load` abstracted as a total
parser `parse` (`none` models `json.JSONDecodeError`): ensure the file
exists, then parse it, recovering from a parse failure with the empty
list. -/
def load_devices (parse : List Char → Option (List Device))
    (store : Option (List Char)) : List Device :=
  match parse (ensure_data_file store) with
  | some ds => ds
  | none => []

/-! ### Lemmas about the MAC codec -/

theorem mem_hexChars_of_isHexChar {c : Char} (h : isHexChar c = true) :
    c ∈ hexChars := of_decide_eq_true h

/-- The uppercase hexadecimal digit of a value below 16. -/
def hexUpperChar (n : Nat) : Char :=
  (['0', '1', '2', '3', '4', '5', '6', '7', '8', '9',
    'A', 'B', 'C', 'D', 'E', 'F']).getD n '*'

theorem toUpper_hexChars {c : Char} (hc : c ∈ hexChars) :
    Char.toUpper c = hexUpperChar (hexDigitVal c) := by
  simp only [hexChars] at hc
  fin_cases hc <;> decide

theorem toUpper_ne_colon {c : Char} (hc : c ∈ hexChars) :
    Char.toUpper c ≠ ':' := by
  simp only [hexChars] at hc
  fin_cases hc <;> decide

theorem exists_twelve (l : List Char) (h : l.length = 12) :
    ∃ c1 c2 c3 c4 c5 c6 c7 c8 c9 c10 c11 c12,
      l = [c1, c2, c3, c4, c5, c6, c7, c8, c9, c10, c11, c12] := by
  rcases l with _ | ⟨c1, l⟩
  · simp at h
  rcases l with _ | ⟨c2, l⟩
  · simp at h
  rcases l with _ | ⟨c3, l⟩
  · simp at h
  rcases l with _ | ⟨c4, l⟩
  · simp at h
  rcases l with _ | ⟨c5, l⟩
  · simp at h
  rcases l with _ | ⟨c6, l⟩
  · simp at h
  rcases l with _ | ⟨c7, l⟩
  · simp at h
  rcases l with _ | ⟨c8, l⟩
  · simp at h
  rcases l with _ | ⟨c9, l⟩
  · simp at h
  rcases l with _ | ⟨c10, l⟩
  · simp at h
  rcases l with _ | ⟨c11, l⟩
  · simp at h
  rcases l with _ | ⟨c12, l⟩
  · simp at h
  rcases l with _ | ⟨c13, l⟩
  · exact ⟨c1, c2, c3, c4, c5, c6, c7, c8, c9, c10, c11, c12, rfl⟩
  · simp only [List.length_cons] at h
    omega

theorem intercalate_chunk2_twelve (c1 c2 c3 c4 c5 c6 c7 c8 c9 c10 c11 c12 : Char) :
    List.intercalate [':']
      ((chunk2 [c1, c2, c3, c4, c5, c6, c7, c8, c9, c10, c11, c12]).map
        (fun p => p.map Char.toUpper)) =
    spec_canonical [c1, c2, c3, c4, c5, c6, c7, c8, c9, c10, c11, c12] := by
  rfl

/-- `normalize_mac` agrees with the spec-worded canonical form on the
stripped hex digits, and returns empty exactly off the 12-digit case. -/
theorem normalize_mac_eq_spec (s : List Char) :
    normalize_mac s =
      if (s.filter isHexChar).length = 12 then
        spec_canonical (s.filter isHexChar)
      else [] := by
  by_cases h : (s.filter isHexChar).length = 12
  · obtain ⟨c1, c2, c3, c4, c5, c6, c7, c8, c9, c10, c11, c12, hl⟩ :=
      exists_twelve _ h
    simp only [normalize_mac, h, if_true, hl, intercalate_chunk2_twelve]
  · simp [normalize_mac, h]

theorem map_toUpper_eq_of_hexDigitVal_eq :
    ∀ l1 l2 : List Char, (∀ c ∈ l1, c ∈ hexChars) → (∀ c ∈ l2, c ∈ hexChars) →
      l1.map hexDigitVal = l2.map hexDigitVal →
      l1.map Char.toUpper = l2.map Char.toUpper := by
  intro l1
  induction l1 with
  | nil =>
    intro l2 _ _ hv
    cases l2 with
    | nil => rfl
    | cons b t => simp at hv
  | cons a t1 ih =>
    intro l2 h1 h2 hv
    cases l2 with
    | nil => simp at hv
    | cons b t2 =>
      simp only [List.map_cons, List.cons.injEq] at hv ⊢
      refine ⟨?_, ih t2 (fun c hc => h1 c (List.mem_cons_of_mem _ hc))
        (fun c hc => h2 c (List.mem_cons_of_mem _ hc)) hv.2⟩
      rw [toUpper_hexChars (h1 a (List.mem_cons_self _ _)),
        toUpper_hexChars (h2 b (List.mem_cons_self _ _)), hv.1]

theorem spec_canonical_congr (l1 l2 : List Char) (h : l1.length = 12)
    (hu : l1.map Char.toUpper = l2.map Char.toUpper) :
    spec_canonical l1 = spec_canonical l2 := by
  have h2 : l2.length = 12 := by
    have := congrArg List.length hu
    simpa [h] using this.symm
  obtain ⟨a1, a2, a3, a4, a5, a6, a7, a8, a9, a10, a11, a12, hl1⟩ :=
    exists_twelve _ h
  obtain ⟨b1, b2, b3, b4, b5, b6, b7, b8, b9, b10, b11, b12, hl2⟩ :=
    exists_twelve _ h2
  subst hl1 hl2
  simp only [List.map_cons, List.map_nil, List.cons.injEq, and_true] at hu
  obtain ⟨e1, e2, e3, e4, e5, e6, e7, e8, e9, e10, e11, e12⟩ := hu
  simp [spec_canonical, e1, e2, e3, e4, e5, e6, e7, e8, e9, e10, e11, e12]

/-! ### Lemmas about the magic packet -/

theorem flatten_replicate_length (k : Nat) (bs : List Nat) :
    ((List.replicate k bs).flatten).length = k * bs.length := by
  induction k with
  | zero => simp
  | succ n ih =>
    simp [List.replicate_succ, ih, Nat.succ_mul, Nat.add_comm]

theorem getD_replicate255 (i : Nat) (hi : i < 6) :
    (List.replicate 6 (255 : Nat)).getD i 0 = 255 := by
  interval_cases i <;> rfl

theorem flatten_replicate_getD (bs : List Nat) (h : bs.length = 6) :
    ∀ k j : Nat, j < 6 * k →
      ((List.replicate k bs).flatten).getD j 0 = bs.getD (j % 6) 0 := by
  intro k
  induction k with
  | zero => intro j hj; omega
  | succ n ih =>
    intro j hj
    rw [List.replicate_succ, List.flatten_cons]
    by_cases hj6 : j < 6
    · rw [List.getD_append _ _ _ _ (h ▸ hj6), Nat.mod_eq_of_lt hj6]
    · have h6j : 6 ≤ j := Nat.le_of_not_lt hj6
      rw [List.getD_append_right _ _ _ _ (by omega : bs.length ≤ j)]
      have e1 : j - bs.length = j - 6 := by rw [h]
      rw [e1, ih (j - 6) (by omega), (by omega : (j - 6) % 6 = j % 6)]

theorem mac_to_bytes_length_six (s : List Char) (hne : normalize_mac s ≠ []) :
    ∃ bs, mac_to_bytes s = some bs ∧ bs.length = 6 := by
  have hspec := normalize_mac_eq_spec s
  by_cases hl : (s.filter isHexChar).length = 12
  case neg =>
    rw [hspec, if_neg hl] at hne
    exact absurd rfl hne
  obtain ⟨c1, c2, c3, c4, c5, c6, c7, c8, c9, c10, c11, c12, hfl⟩ :=
    exists_twelve _ hl
  have hmem : ∀ c ∈ [c1, c2, c3, c4, c5, c6, c7, c8, c9, c10, c11, c12],
      c ∈ hexChars := by
    rw [← hfl]
    exact fun c hc => mem_hexChars_of_isHexChar (List.mem_filter.mp hc).2
  rw [if_pos hl, hfl] at hspec
  have n1 : c1.toUpper ≠ ':' := toUpper_ne_colon (hmem c1 (by simp))
  have n2 : c2.toUpper ≠ ':' := toUpper_ne_colon (hmem c2 (by simp))
  have n3 : c3.toUpper ≠ ':' := toUpper_ne_colon (hmem c3 (by simp))
  have n4 : c4.toUpper ≠ ':' := toUpper_ne_colon (hmem c4 (by simp))
  have n5 : c5.toUpper ≠ ':' := toUpper_ne_colon (hmem c5 (by simp))
  have n6 : c6.toUpper ≠ ':' := toUpper_ne_colon (hmem c6 (by simp))
  have n7 : c7.toUpper ≠ ':' := toUpper_ne_colon (hmem c7 (by simp))
  have n8 : c8.toUpper ≠ ':' := toUpper_ne_colon (hmem c8 (by simp))
  have n9 : c9.toUpper ≠ ':' := toUpper_ne_colon (hmem c9 (by simp))
  have n10 : c10.toUpper ≠ ':' := toUpper_ne_colon (hmem c10 (by simp))
  have n11 : c11.toUpper ≠ ':' := toUpper_ne_colon (hmem c11 (by simp))
  have n12 : c12.toUpper ≠ ':' := toUpper_ne_colon (hmem c12 (by simp))
  have key : pySplit ':' (spec_canonical
      [c1, c2, c3, c4, c5, c6, c7, c8, c9, c10, c11, c12]) =
      [[c1.toUpper, c2.toUpper], [c3.toUpper, c4.toUpper],
       [c5.toUpper, c6.toUpper], [c7.toUpper, c8.toUpper],
       [c9.toUpper, c10.toUpper], [c11.toUpper, c12.toUpper]] := by
    simp [spec_canonical, pySplit, n1, n2, n3, n4, n5, n6, n7, n8, n9, n10,
      n11, n12]
  have hmb : mac_to_bytes s = some ((pySplit ':' (spec_canonical
      [c1, c2, c3, c4, c5, c6, c7, c8, c9, c10, c11, c12])).map hexGroupVal) := by
    simp only [mac_to_bytes, hspec]
    rw [if_neg (by simp [spec_canonical])]
  rw [key] at hmb
  exact ⟨_, hmb, by simp⟩

/-! ### Claims -/

/-- C1: for every 6-byte MAC, the magic packet is exactly 102 bytes,
bytes 0–5 are `0xFF` and bytes 6–101 are the MAC repeated 16 times in
order; and the packet `send_wol` transmits is exactly the magic packet
of `mac_to_bytes`, addressed to the requested `(ip, port)`. -/
theorem claim_C1 :
    (∀ macBytes : List Nat, macBytes.length = 6 →
      (magic_packet macBytes).length = 102 ∧
      ∀ i, i < 102 →
        (magic_packet macBytes).getD i 0 =
          if i < 6 then 255 else macBytes.getD ((i - 6) % 6) 0)
    ∧ (∀ mac ip : List Char, ∀ port : Nat, ∀ p : SentPacket,
        send_wol mac ip port = some p →
        ∃ bs, mac_to_bytes mac = some bs ∧
          p.payload = magic_packet bs ∧ p.ip = ip ∧ p.port = port) := by
  constructor
  · intro macBytes h
    constructor
    · simp [magic_packet, flatten_replicate_length, h]
    · intro i hi
      by_cases hi6 : i < 6
      · rw [if_pos hi6, magic_packet,
          List.getD_append _ _ _ _ (by simpa using hi6), getD_replicate255 i hi6]
      · rw [if_neg hi6, magic_packet,
          List.getD_append_right _ _ _ _ (by simpa using Nat.le_of_not_lt hi6)]
        simp only [List.length_replicate]
        exact flatten_replicate_getD macBytes h 16 (i - 6) (by omega)
  · intro mac ip port p hp
    cases hbs : mac_to_bytes mac with
    | none => simp [send_wol, hbs] at hp
    | some bs =>
      simp only [send_wol, hbs, Option.map_some', Option.some.injEq] at hp
      exact ⟨bs, rfl, by rw [← hp], by rw [← hp], by rw [← hp]⟩

/-- Witness for C1 at the MAC bytes `AA:BB:CC:DD:EE:FF`. -/
theorem claim_C1_witness :
    (magic_packet [170, 187, 204, 221, 238, 255]).length = 102 :=
  (claim_C1.1 [170, 187, 204, 221, 238, 255] (by decide)).1

/-- C2: `normalize_mac` yields the spec's canonical form (six
two-character uppercase hex groups joined with `:`) exactly when the
input stripped of non-hex characters has 12 hex digits, and the empty
string otherwise; two inputs whose stripped digit sequences denote the
same 48-bit value normalize identically. -/
theorem claim_C2 (s : List Char) :
    (normalize_mac s =
      if (s.filter isHexChar).length = 12 then
        spec_canonical (s.filter isHexChar)
      else [])
    ∧ ((s.filter isHexChar).length = 12 → normalize_mac s ≠ [])
    ∧ (∀ t : List Char, (s.filter isHexChar).length = 12 →
        (t.filter isHexChar).length = 12 →
        (s.filter isHexChar).map hexDigitVal = (t.filter isHexChar).map hexDigitVal →
        normalize_mac s = normalize_mac t) := by
  refine ⟨normalize_mac_eq_spec s, ?_, ?_⟩
  · intro h
    rw [normalize_mac_eq_spec s, if_pos h]
    obtain ⟨c1, c2, c3, c4, c5, c6, c7, c8, c9, c10, c11, c12, hl⟩ :=
      exists_twelve _ h
    rw [hl]
    simp [spec_canonical]
  · intro t hs ht hv
    rw [normalize_mac_eq_spec s, normalize_mac_eq_spec t, if_pos hs, if_pos ht]
    refine spec_canonical_congr _ _ hs
      (map_toUpper_eq_of_hexDigitVal_eq _ _ ?_ ?_ hv)
    · exact fun c hc => mem_hexChars_of_isHexChar (List.mem_filter.mp hc).2
    · exact fun c hc => mem_hexChars_of_isHexChar (List.mem_filter.mp hc).2

/-- Witness for C2: two punctuation/case variants of `AA:BB:CC:DD:EE:FF`
normalize to the same canonical form. -/
theorem claim_C2_witness :
    normalize_mac ['a', 'a', 'b', 'b', 'c', 'c', 'd', 'd', 'e', 'e', 'f', 'f'] =
    normalize_mac ['A', 'A', '-', 'B', 'B', '-', 'C', 'C', '-', 'D', 'D', '-',
      'E', 'E', '-', 'F', 'F'] :=
  (claim_C2 _).2.2 _ (by decide) (by decide) (by decide)

/-- C10: two inputs with the same non-empty canonical form produce the
same 6-byte sequence from `mac_to_bytes`, and `send_wol` builds
byte-identical packets for both. -/
theorem claim_C10 (s t : List Char)
    (hst : normalize_mac s = normalize_mac t) (hne : normalize_mac s ≠ []) :
    mac_to_bytes s = mac_to_bytes t ∧
    (∃ bs, mac_to_bytes s = some bs ∧ bs.length = 6) ∧
    ∀ ip : List Char, ∀ port : Nat, send_wol s ip port = send_wol t ip port := by
  have hb : mac_to_bytes s = mac_to_bytes t := by
    simp only [mac_to_bytes, hst]
  exact ⟨hb, mac_to_bytes_length_six s hne,
    fun ip port => by simp only [send_wol, hb]⟩

/-- Witness for C10 at `aabbccddeeff` and `AA-BB-CC-DD-EE-FF`. -/
theorem claim_C10_witness :
    mac_to_bytes ['a', 'a', 'b', 'b', 'c', 'c', 'd', 'd', 'e', 'e', 'f', 'f'] =
    mac_to_bytes ['A', 'A', '-', 'B', 'B', '-', 'C', 'C', '-', 'D', 'D', '-',
      'E', 'E', '-', 'F', 'F'] :=
  (claim_C10 _ _ (by decide) (by decide)).1

theorem normalize_ne_nil_of_validate {mac : List Char}
    (h : validate_mac mac = true) : normalize_mac mac ≠ [] := by
  intro h0
  simp [validate_mac, h0] at h

/-- C3: `add_device` rejects an invalid MAC with a validation error,
rejects a MAC whose canonical form is already stored with a duplicate
error, and otherwise appends (and saves) a record holding the canonical
MAC and exactly the non-empty optional fields, returning it. -/
theorem claim_C3 (req : AddReq) (devices : List Device) :
    (validate_mac req.mac = false → add_device req devices = .error .validation)
    ∧ (validate_mac req.mac = true →
        (∃ d ∈ devices, d.mac = some (normalize_mac req.mac)) →
        add_device req devices = .error .duplicate)
    ∧ (validate_mac req.mac = true →
        (∀ d ∈ devices, d.mac ≠ some (normalize_mac req.mac)) →
        add_device req devices =
          .ok (devices ++ [⟨some (normalize_mac req.mac), orNone req.ip,
                orNone req.remark, orNone req.broadcast_ip⟩],
              ⟨some (normalize_mac req.mac), orNone req.ip, orNone req.remark,
                orNone req.broadcast_ip⟩)) := by
  refine ⟨?_, ?_, ?_⟩
  · intro h
    simp [add_device, h]
  · intro hv hdup
    obtain ⟨d, hd, hmac⟩ := hdup
    simp only [add_device, hv, if_true]
    rw [if_pos]
    simp only [List.any_eq_true, decide_eq_true_eq]
    exact ⟨d, hd, hmac⟩
  · intro hv hno
    simp only [add_device, hv, if_true]
    rw [if_neg]
    simp only [List.any_eq_true, decide_eq_true_eq, not_exists]
    intro d
    simp only [not_and]
    exact hno d

/-- Witness for C3: adding `aabbccddeeff` to the empty registry stores
its canonical form. -/
theorem claim_C3_witness :
    add_device ⟨['a', 'a', 'b', 'b', 'c', 'c', 'd', 'd', 'e', 'e', 'f', 'f'],
        none, none, none⟩ [] =
      .ok ([⟨some (normalize_mac
            ['a', 'a', 'b', 'b', 'c', 'c', 'd', 'd', 'e', 'e', 'f', 'f']),
          none, none, none⟩],
        ⟨some (normalize_mac
            ['a', 'a', 'b', 'b', 'c', 'c', 'd', 'd', 'e', 'e', 'f', 'f']),
          none, none, none⟩) :=
  (claim_C3 _ _).2.2 (by decide) (by simp)

/-- C6: `delete_device` normalizes its input, fails with a not-found
error when no record carries the canonical MAC, and otherwise saves the
remaining records; under the registry uniqueness invariant exactly one
record is removed and the rest survive in order. -/
theorem claim_C6 (mac : List Char) (devices : List Device) :
    ((∀ d ∈ devices, d.mac ≠ some (normalize_mac mac)) →
      delete_device mac devices = .error .notFound)
    ∧ ((∃ d ∈ devices, d.mac = some (normalize_mac mac)) →
        delete_device mac devices =
          .ok (devices.filter (fun d => d.mac ≠ some (normalize_mac mac))))
    ∧ (devices.countP (fun d => d.mac = some (normalize_mac mac)) ≤ 1 →
        (∃ d ∈ devices, d.mac = some (normalize_mac mac)) →
        ∃ kept, delete_device mac devices = .ok kept ∧
          kept.length + 1 = devices.length ∧
          kept.Sublist devices ∧
          (∀ d ∈ kept, d.mac ≠ some (normalize_mac mac)) ∧
          (∀ d ∈ devices, d.mac ≠ some (normalize_mac mac) → d ∈ kept)) := by
  have hsplit : devices.length =
      devices.countP (fun d => d.mac ≠ some (normalize_mac mac)) +
      devices.countP (fun d => d.mac = some (normalize_mac mac)) := by
    rw [List.length_eq_countP_add_countP
      (p := fun d : Device => d.mac ≠ some (normalize_mac mac)) (l := devices)]
    congr 1
    refine List.countP_congr (fun d _ => ?_)
    simp
  have hkeep : (devices.filter
      (fun d => d.mac ≠ some (normalize_mac mac))).length =
      devices.countP (fun d : Device => d.mac ≠ some (normalize_mac mac)) :=
    (List.countP_eq_length_filter _ _).symm
  refine ⟨?_, ?_, ?_⟩
  · intro hno
    have hfe : devices.filter (fun d => d.mac ≠ some (normalize_mac mac)) = devices :=
      List.filter_eq_self.mpr (fun d hd => by
        simpa using hno d hd)
    simp only [delete_device]
    rw [if_pos (by rw [hfe])]
  · intro hex
    obtain ⟨d, hd, hmac⟩ := hex
    have hpos : 0 < devices.countP
        (fun d : Device => d.mac = some (normalize_mac mac)) :=
      List.countP_pos_iff.mpr ⟨d, hd, by simpa using hmac⟩
    have hlt : (devices.filter
        (fun d => d.mac ≠ some (normalize_mac mac))).length < devices.length := by
      rw [hkeep]
      omega
    simp only [delete_device]
    rw [if_neg (by omega)]
  · intro hle hex
    obtain ⟨d, hd, hmac⟩ := hex
    have hpos : 0 < devices.countP
        (fun d : Device => d.mac = some (normalize_mac mac)) :=
      List.countP_pos_iff.mpr ⟨d, hd, by simpa using hmac⟩
    have hone : devices.countP
        (fun d : Device => d.mac = some (normalize_mac mac)) = 1 := by omega
    have hlt : (devices.filter
        (fun d => d.mac ≠ some (normalize_mac mac))).length < devices.length := by
      rw [hkeep]
      omega
    refine ⟨devices.filter (fun d => d.mac ≠ some (normalize_mac mac)), ?_, ?_,
      List.filter_sublist _, ?_, ?_⟩
    · simp only [delete_device]
      rw [if_neg (by omega)]
    · rw [hkeep]
      omega
    · intro d1 hd1
      simpa using (List.mem_filter.mp hd1).2
    · intro d1 hd1 hmac1
      exact List.mem_filter.mpr ⟨hd1, by simpa using hmac1⟩

/-- Witness for C6: deleting `AA:BB:CC:DD:EE:FF` from a one-record
registry empties it. -/
theorem claim_C6_witness :
    delete_device
      ['a', 'a', 'b', 'b', 'c', 'c', 'd', 'd', 'e', 'e', 'f', 'f']
      [⟨some (normalize_mac
          ['a', 'a', 'b', 'b', 'c', 'c', 'd', 'd', 'e', 'e', 'f', 'f']),
        none, none, none⟩] = .ok [] :=
  (claim_C6 _ _).2.1 ⟨_, List.mem_singleton_self _, rfl⟩

/-- C7: for a valid MAC, the wake endpoint sends the magic packet to the
registered device's truthy `broadcast_ip`, or to `255.255.255.255` when
the MAC is unregistered or its record lacks one; a missing port falls
back to 9. -/
theorem claim_C7 (mac : List Char) (port : Option Nat) (devices : List Device)
    (hv : validate_mac mac = true) :
    ∃ bs, mac_to_bytes mac = some bs ∧
      ((∀ d b, devices.find? (fun d => d.mac = some (normalize_mac mac)) = some d →
          d.broadcast_ip = some b → b ≠ [] →
          wake_device mac port devices =
            .ok ⟨magic_packet bs, b, effectivePort port⟩)
       ∧ (devices.find? (fun d => d.mac = some (normalize_mac mac)) = none →
          wake_device mac port devices =
            .ok ⟨magic_packet bs, globalBroadcast, effectivePort port⟩)
       ∧ (∀ d, devices.find? (fun d => d.mac = some (normalize_mac mac)) = some d →
          truthy d.broadcast_ip = false →
          wake_device mac port devices =
            .ok ⟨magic_packet bs, globalBroadcast, effectivePort port⟩)
       ∧ (port = none → effectivePort port = 9)) := by
  obtain ⟨bs, hbs, _⟩ :=
    mac_to_bytes_length_six mac (normalize_ne_nil_of_validate hv)
  refine ⟨bs, hbs, ?_, ?_, ?_, ?_⟩
  · intro d b hfind hip hb
    simp [wake_device, hv, hfind, hip, hb, send_wol, hbs]
  · intro hfind
    simp [wake_device, hv, hfind, send_wol, hbs]
  · intro d hfind htr
    cases hip : d.broadcast_ip with
    | none => simp [wake_device, hv, hfind, hip, send_wol, hbs]
    | some b =>
      have hb : b = [] := by
        simpa [truthy, hip] using htr
      simp [wake_device, hv, hfind, hip, hb, send_wol, hbs]
  · intro h
    simp [effectivePort, h]

/-- Witness for C7: waking an unregistered valid MAC with no port sends
to the global broadcast on port 9. -/
theorem claim_C7_witness :
    wake_device ['a', 'a', 'b', 'b', 'c', 'c', 'd', 'd', 'e', 'e', 'f', 'f']
        none [] =
      .ok ⟨magic_packet [170, 187, 204, 221, 238, 255], globalBroadcast, 9⟩ := by
  obtain ⟨bs, hbs, _, hglobal, _, _⟩ :=
    claim_C7 ['a', 'a', 'b', 'b', 'c', 'c', 'd', 'd', 'e', 'e', 'f', 'f']
      none [] (by decide)
  have hbs6 : bs = [170, 187, 204, 221, 238, 255] := by
    have : mac_to_bytes ['a', 'a', 'b', 'b', 'c', 'c', 'd', 'd', 'e', 'e', 'f', 'f'] =
        some [170, 187, 204, 221, 238, 255] := by decide
    rw [this] at hbs
    exact (Option.some.injEq _ _ ▸ hbs).symm
  rw [← hbs6]
  exact hglobal rfl

/-- C4: `check_all_devices` yields one result per input device carrying
that device's MAC; a device without a truthy address is reported offline
by a computation that never consults the network; a worker that raised
is converted to an offline entry; and changing one device's failure
behaviour leaves every other device's result untouched. -/
theorem claim_C4 (env : NetEnv) (exc : Device → Bool) (devices : List Device) :
    (check_all_devices env exc devices).length = devices.length
    ∧ (∀ i, i < devices.length →
        ((check_all_devices env exc devices).getD i default).mac =
          (devices.getD i default).mac)
    ∧ (∀ d : Device, truthy d.ip = false →
        ∀ env1 env2 : NetEnv, ∀ exc1 : Device → Bool,
          device_result env1 exc1 d = ⟨d.mac, false, none⟩ ∧
          check_device_worker env1 d = check_device_worker env2 d)
    ∧ (∀ d : Device, exc d = true →
        device_result env exc d = ⟨d.mac, false, none⟩)
    ∧ (∀ exc1 exc2 : Device → Bool, ∀ d0 : Device,
        (∀ d : Device, d ≠ d0 → exc1 d = exc2 d) →
        ∀ i, i < devices.length → devices.getD i default ≠ d0 →
          (check_all_devices env exc1 devices).getD i default =
            (check_all_devices env exc2 devices).getD i default) := by
  have hworker : ∀ d : Device, truthy d.ip = false →
      ∀ env1 : NetEnv, check_device_worker env1 d = ⟨d.mac, false, none⟩ := by
    intro d hd env1
    cases hip : d.ip with
    | none => simp [check_device_worker, hip]
    | some s =>
      have hs : s = [] := by simpa [truthy, hip] using hd
      simp [check_device_worker, hip, hs]
  have hgetD : ∀ (e : NetEnv) (x : Device → Bool) i, i < devices.length →
      (check_all_devices e x devices).getD i default =
        device_result e x (devices.getD i default) := by
    intro e x i hi
    rw [check_all_devices,
      List.getD_eq_getElem _ _ (by simpa using hi),
      List.getD_eq_getElem _ _ hi, List.getElem_map]
  have hmac : ∀ (e : NetEnv) (x : Device → Bool) (d : Device),
      (device_result e x d).mac = d.mac := by
    intro e x d
    unfold device_result
    by_cases hx : x d = true
    · simp [hx]
    · rw [if_neg hx]
      unfold check_device_worker
      cases hip : d.ip with
      | none => simp
      | some s =>
        by_cases hs : s = []
        · simp [hs]
        · simp [hs]
  refine ⟨by simp [check_all_devices], ?_, ?_, ?_, ?_⟩
  · intro i hi
    rw [hgetD env exc i hi, hmac]
  · intro d hd env1 env2 exc1
    refine ⟨?_, by rw [hworker d hd env1, hworker d hd env2]⟩
    unfold device_result
    by_cases he : exc1 d = true
    · simp [he]
    · simp only [he]
      rw [if_neg (by simp [he]), hworker d hd env1]
  · intro d hd
    simp [device_result, hd]
  · intro exc1 exc2 d0 hagree i hi hne
    rw [hgetD env exc1 i hi, hgetD env exc2 i hi]
    unfold device_result
    rw [hagree _ hne]

/-- Witness for C4: a device without an address is reported offline under
any environment, applying the claim to a one-device registry. -/
theorem claim_C4_witness :
    device_result (fun _ _ _ => .exn) (fun _ => false)
      ⟨some (normalize_mac
        ['a', 'a', 'b', 'b', 'c', 'c', 'd', 'd', 'e', 'e', 'f', 'f']),
        none, none, none⟩ =
      ⟨some (normalize_mac
        ['a', 'a', 'b', 'b', 'c', 'c', 'd', 'd', 'e', 'e', 'f', 'f']),
        false, none⟩ :=
  ((claim_C4 (fun _ _ _ => .exn) (fun _ => false) []).2.2.1
    ⟨some (normalize_mac
      ['a', 'a', 'b', 'b', 'c', 'c', 'd', 'd', 'e', 'e', 'f', 'f']),
      none, none, none⟩
    rfl (fun _ _ _ => .exn) (fun _ _ _ => .exn) (fun _ => false)).1

/-- C5: `check_port` reports an empty address offline without consulting
the network, collapses every failure (exception or non-zero connect
code) to `{online := false, latency := none}` without raising, and
reports a successful connection online with its elapsed whole
milliseconds. -/
theorem claim_C5 (env : NetEnv) (ip : List Char) (port : Nat) (timeout : Rat) :
    (∀ env2 : NetEnv, check_port env2 [] port timeout = ⟨false, none⟩)
    ∧ (env ip port timeout = .exn →
        check_port env ip port timeout = ⟨false, none⟩)
    ∧ (∀ code ms, env ip port timeout = .ret code ms → code ≠ 0 →
        check_port env ip port timeout = ⟨false, none⟩)
    ∧ (∀ ms, ip ≠ [] → env ip port timeout = .ret 0 ms →
        check_port env ip port timeout = ⟨true, some ms⟩) := by
  refine ⟨?_, ?_, ?_, ?_⟩
  · intro env2
    simp [check_port]
  · intro h
    by_cases hip : ip = []
    · simp [check_port, hip]
    · simp [check_port, hip, h]
  · intro code ms h hcode
    by_cases hip : ip = []
    · simp [check_port, hip]
    · simp [check_port, hip, h, hcode]
  · intro ms hip h
    simp [check_port, hip, h]

/-- Witness for C5: a refused connection (non-zero code) against
`10.0.0.1:3389` is reported offline. -/
theorem claim_C5_witness :
    check_port (fun _ _ _ => .ret 111 5)
      ['1', '0', '.', '0', '.', '0', '.', '1'] 3389 1 = ⟨false, none⟩ :=
  (claim_C5 (fun _ _ _ => .ret 111 5)
      ['1', '0', '.', '0', '.', '0', '.', '1'] 3389 1).2.2.1
    111 5 rfl (by decide)

/-- Counterexample to C8 as stated: the query `" a "` (surrounded by
whitespace) is stripped by the code before matching, so a record whose
remark is `"a"` is returned even though no field contains `" a "`. -/
theorem claim_C8_counterexample :
    search_devices [' ', 'a', ' ']
        [⟨some ['A', 'A'], none, some ['a'], none⟩] ≠
      claimedSearch [' ', 'a', ' ']
        [⟨some ['A', 'A'], none, some ['a'], none⟩] := by
  decide

/-- C8 (amended): with the query first stripped of surrounding
whitespace, `search_devices` returns exactly the records, in registry
order, one of whose MAC, address or remark fields (missing fields read
as empty) contains the stripped query case-insensitively; a query that
is empty after stripping returns all records. -/
theorem claim_C8 (q : List Char) (devices : List Device) :
    (toLowerAll (pyStrip q) = [] → search_devices q devices = devices)
    ∧ (toLowerAll (pyStrip q) ≠ [] →
        (search_devices q devices).Sublist devices
        ∧ ∀ d : Device, d ∈ search_devices q devices ↔
            d ∈ devices ∧
              (toLowerAll (pyStrip q) <:+: toLowerAll (fieldText d.mac) ∨
               toLowerAll (pyStrip q) <:+: toLowerAll (fieldText d.ip) ∨
               toLowerAll (pyStrip q) <:+: toLowerAll (fieldText d.remark))) := by
  constructor
  · intro h
    simp [search_devices, h]
  · intro h
    constructor
    · simp only [search_devices]
      rw [if_neg h]
      exact List.filter_sublist _
    · intro d
      simp only [search_devices]
      rw [if_neg h]
      rw [List.mem_filter]
      simp [searchMatch, or_assoc]

/-- Witness for C8: the empty query returns the registry unchanged. -/
theorem claim_C8_witness :
    search_devices [] [⟨some ['A', 'A'], none, some ['a'], none⟩] =
      [⟨some ['A', 'A'], none, some ['a'], none⟩] :=
  (claim_C8 [] [⟨some ['A', 'A'], none, some ['a'], none⟩]).1 rfl

/-- C9: loading the registry never fails: a missing backing store is
created as (and read as) the empty collection, an unparseable store is
read as the empty collection, and a parseable store is read as its
contents. -/
theorem claim_C9 (parse : List Char → Option (List Device))
    (hp : parse emptyJson = some []) :
    load_devices parse none = []
    ∧ (∀ s, parse s = none → load_devices parse (some s) = [])
    ∧ (∀ store r, parse (ensure_data_file store) = some r →
        load_devices parse store = r) := by
  refine ⟨?_, ?_, ?_⟩
  · simp [load_devices, ensure_data_file, hp]
  · intro s hs
    simp [load_devices, ensure_data_file, hs]
  · intro store r hr
    simp [load_devices, hr]

/-- Witness for C9 with a parser that accepts only the empty store. -/
theorem claim_C9_witness :
    load_devices (fun s => if s = emptyJson then some [] else none) none = [] :=
  (claim_C9 (fun s => if s = emptyJson then some [] else none)
    (by simp)).1

end Wol
